import Mathlib

/-!
Verification of the `licenses_pro` crate: a shallow embedding of its
license-generation, checksum, codec, verification and blocker code,
followed by theorems settling the specification's claims.

Bytes are modelled as `Nat` values (< 256 where it matters); `Vec<u8>`
becomes `List Nat`; `String` (ASCII license text) becomes `List Nat` of
byte values.  Fallible Rust functions returning `Result` become `Except`.
-/

namespace LicensesPro

/-- Constant `CHECKSUM_LEN` from `lib.rs`. -/
def CHECKSUM_LEN : Nat := 2

/-- Structure `LicenseStructParameters` from `lib.rs`. -/
structure LicenseStructParameters where
  seed_length : Nat
  payload_length : Nat
  chunk_size : Nat
deriving DecidableEq

/-- The `Default` impl of `LicenseStructParameters` from `lib.rs`. -/
def LicenseStructParameters.default : LicenseStructParameters :=
  { seed_length := 6, payload_length := 10, chunk_size := 2 }

/-- Structure `License` from `check.rs`. -/
structure License where
  seed : List Nat
  payload : List (List Nat)
  checksum : List Nat
deriving DecidableEq

/-- Decidable equality for `Except`, so that concrete runs of the fallible
operations can be checked by `decide`. -/
instance {e a : Type} [DecidableEq e] [DecidableEq a] : DecidableEq (Except e a) := fun x y =>
  match x, y with
  | .ok u, .ok v =>
    if h : u = v then isTrue (by rw [h]) else isFalse (fun hc => by cases hc; exact h rfl)
  | .ok _, .error _ => isFalse (fun hc => by cases hc)
  | .error _, .ok _ => isFalse (fun hc => by cases hc)
  | .error u, .error v =>
    if h : u = v then isTrue (by rw [h]) else isFalse (fun hc => by cases hc; exact h rfl)

/-! ## SHA-256 (the `ring::digest::SHA256` primitive used by the crate) -/

/-- Truncation to a 32-bit word. -/
def w32 (n : Nat) : Nat := n % 4294967296

/-- 32-bit right rotation. -/
def rotr (n x : Nat) : Nat := w32 (x / 2 ^ n + x % 2 ^ n * 2 ^ (32 - n))

/-- Logical right shift. -/
def shr (n x : Nat) : Nat := x / 2 ^ n

def ch (e f g : Nat) : Nat := (e &&& f) ^^^ ((e ^^^ 4294967295) &&& g)

def maj (a b c : Nat) : Nat := (a &&& b) ^^^ (a &&& c) ^^^ (b &&& c)

def bigSigma0 (a : Nat) : Nat := rotr 2 a ^^^ rotr 13 a ^^^ rotr 22 a

def bigSigma1 (e : Nat) : Nat := rotr 6 e ^^^ rotr 11 e ^^^ rotr 25 e

def smallSigma0 (x : Nat) : Nat := rotr 7 x ^^^ rotr 18 x ^^^ shr 3 x

def smallSigma1 (x : Nat) : Nat := rotr 17 x ^^^ rotr 19 x ^^^ shr 10 x

/-- The 64 SHA-256 round constants. -/
def sha256K : List Nat :=
  [1116352408, 1899447441, 3049323471, 3921009573, 961987163, 1508970993,
   2453635748, 2870763221, 3624381080, 310598401, 607225278, 1426881987,
   1925078388, 2162078206, 2614888103, 3248222580, 3835390401, 4022224774,
   264347078, 604807628, 770255983, 1249150122, 1555081692, 1996064986,
   2554220882, 2821834349, 2952996808, 3210313671, 3336571891, 3584528711,
   113926993, 338241895, 666307205, 773529912, 1294757372, 1396182291,
   1695183700, 1986661051, 2177026350, 2456956037, 2730485921, 2820302411,
   3259730800, 3345764771, 3516065817, 3600352804, 4094571909, 275423344,
   430227734, 506948616, 659060556, 883997877, 958139571, 1322822218,
   1537002063, 1747873779, 1955562222, 2024104815, 2227730452, 2361852424,
   2428436474, 2756734187, 3204031479, 3329325298]

/-- The SHA-256 initial hash state. -/
def sha256H0 : List Nat :=
  [1779033703, 3144134277, 1013904242, 2773480762, 1359893119,
   2600822924, 528734635, 1541459225]

/-- Big-endian 4-byte encoding of a 32-bit word. -/
def beBytes4 (n : Nat) : List Nat := [n / 2 ^ 24 % 256, n / 2 ^ 16 % 256, n / 2 ^ 8 % 256, n % 256]

/-- Big-endian 8-byte encoding of a 64-bit value (the message bit length). -/
def beBytes8 (n : Nat) : List Nat :=
  [n / 2 ^ 56 % 256, n / 2 ^ 48 % 256, n / 2 ^ 40 % 256, n / 2 ^ 32 % 256,
   n / 2 ^ 24 % 256, n / 2 ^ 16 % 256, n / 2 ^ 8 % 256, n % 256]

/-- SHA-256 padding: append 0x80, zeros to 56 mod 64, then the 64-bit bit length. -/
def sha256pad (msg : List Nat) : List Nat :=
  msg ++ 128 :: List.replicate ((119 - msg.length % 64) % 64) 0 ++ beBytes8 (msg.length * 8)

/-- Group 4 consecutive bytes big-endian into 32-bit words. -/
def toWords : List Nat → List Nat
  | b0 :: b1 :: b2 :: b3 :: rest => (((b0 * 256 + b1) * 256 + b2) * 256 + b3) :: toWords rest
  | _ => []

/-- One message-schedule extension step: appends `W[n]` for `n = ws.length`. -/
def stepW (ws : List Nat) : List Nat :=
  let n := ws.length
  ws ++ [w32 (smallSigma1 (ws.getD (n - 2) 0) + ws.getD (n - 7) 0 +
              smallSigma0 (ws.getD (n - 15) 0) + ws.getD (n - 16) 0)]

/-- Iterate the schedule extension. -/
def iterW : Nat → List Nat → List Nat
  | 0, ws => ws
  | k + 1, ws => iterW k (stepW ws)

/-- One SHA-256 compression round on the 8-word working state. -/
def round1 : Nat × Nat → List Nat → List Nat
  | (k, w), a :: b :: c :: d :: e :: f :: g :: h :: [] =>
    let t1 := w32 (h + bigSigma1 e + ch e f g + k + w)
    let t2 := w32 (bigSigma0 a + maj a b c)
    w32 (t1 + t2) :: a :: b :: c :: w32 (d + t1) :: e :: f :: g :: []
  | _, st => st

/-- All 64 compression rounds, driven by the zipped `(K, W)` pairs. -/
def compressRounds : List (Nat × Nat) → List Nat → List Nat
  | [], st => st
  | kw :: rest, st => compressRounds rest (round1 kw st)

/-- One 64-byte block: compress, then add the result into the running state. -/
def processBlock (h : List Nat) (block : List Nat) : List Nat :=
  List.zipWith (fun x y => w32 (x + y)) h
    (compressRounds (sha256K.zip (iterW 48 (toWords block))) h)

/-- Fuel-based worker for `chunksOf`; the fuel only forces termination and is
always instantiated with the list length, which suffices when `k > 0`. -/
def chunksOfAux (k : Nat) : Nat → List Nat → List (List Nat)
  | _, [] => []
  | 0, _ => []
  | fuel + 1, l => l.take k :: chunksOfAux k fuel (l.drop k)

/-- Splits a byte list into consecutive chunks of `k` bytes; also embeds the
chunking `while` loop of `License::from_license_bytes`.  With `k = 0` and a
non-empty list the Rust loop never terminates; that case is unreachable in
the crate (the payload slice then has length `payload_length * 0 = 0`). -/
def chunksOf (k : Nat) (l : List Nat) : List (List Nat) :=
  if k = 0 then [] else chunksOfAux k l.length l

/-- SHA-256 of a byte string, as a 32-byte digest. -/
def sha256 (msg : List Nat) : List Nat :=
  (((chunksOf 64 (sha256pad msg)).foldl processBlock sha256H0).map beBytes4).flatten

/-! ## Key derivation and checksum (`lib.rs`) -/

/-- Function `generate_key_chunk` from `lib.rs`: SHA-256 of `iv ++ seed`
truncated to the first `chunk_size` bytes.  The Rust slice `[..chunk_size]`
panics when `chunk_size > 32`; theorems about generation therefore carry the
spec's configuration constraint `chunk_size ≤ 32`. -/
def generate_key_chunk (iv : List Nat) (seed : List Nat) (chunk_size : Nat) : List Nat :=
  (sha256 (iv ++ seed)).take chunk_size

/-- Function `generate_checksum` from `lib.rs`: SHA-256 of
`seed ++ payload.concat()` truncated to `CHECKSUM_LEN` bytes. -/
def generate_checksum (seed : List Nat) (payload : List (List Nat)) : List Nat :=
  (sha256 (seed ++ payload.flatten)).take CHECKSUM_LEN

/-! ## Base64 (the `base64` crate's `STANDARD_NO_PAD` engine) -/

/-- Maps a sextet value to its standard-alphabet ASCII byte. -/
def b64EncodeChar (n : Nat) : Nat :=
  if n < 26 then 65 + n
  else if n < 52 then 97 + (n - 26)
  else if n < 62 then 48 + (n - 52)
  else if n = 62 then 43
  else 47

/-- Maps an ASCII byte back to its sextet value; `none` on bytes outside the
standard alphabet (including the padding byte, which `STANDARD_NO_PAD`
rejects). -/
def b64DecodeChar (c : Nat) : Option Nat :=
  if 65 ≤ c ∧ c ≤ 90 then some (c - 65)
  else if 97 ≤ c ∧ c ≤ 122 then some (26 + (c - 97))
  else if 48 ≤ c ∧ c ≤ 57 then some (52 + (c - 48))
  else if c = 43 then some 62
  else if c = 47 then some 63
  else none

/-- Converts a byte string into the sextet stream of its base64 encoding. -/
def b64EncodeSextets : List Nat → List Nat
  | [] => []
  | [b0] => [b0 / 4, b0 % 4 * 16]
  | [b0, b1] => [b0 / 4, b0 % 4 * 16 + b1 / 16, b1 % 16 * 4]
  | b0 :: b1 :: b2 :: rest =>
    b0 / 4 :: (b0 % 4 * 16 + b1 / 16) :: (b1 % 16 * 4 + b2 / 64) :: b2 % 64 :: b64EncodeSextets rest

/-- Unpadded base64 encoding of a byte string, as ASCII bytes. -/
def b64Encode (l : List Nat) : List Nat := (b64EncodeSextets l).map b64EncodeChar

/-- Reassembles bytes from a sextet stream.  Mirrors the `base64` crate's
strict decode: a trailing group of one sextet is an invalid length, and the
unused low bits of the final sextet must be zero. -/
def b64DecodeSextets : List Nat → Option (List Nat)
  | [] => some []
  | [_] => none
  | [s0, s1] => if s1 % 16 = 0 then some [s0 * 4 + s1 / 16] else none
  | [s0, s1, s2] =>
    if s2 % 4 = 0 then some [s0 * 4 + s1 / 16, s1 % 16 * 16 + s2 / 4] else none
  | s0 :: s1 :: s2 :: s3 :: rest =>
    match b64DecodeSextets rest with
    | none => none
    | some bs => some ((s0 * 4 + s1 / 16) :: (s1 % 16 * 16 + s2 / 4) :: (s2 % 4 * 64 + s3) :: bs)

/-- Decodes every ASCII byte to a sextet, failing on the first invalid byte. -/
def b64DecodeChars : List Nat → Option (List Nat)
  | [] => some []
  | c :: cs =>
    match b64DecodeChar c, b64DecodeChars cs with
    | some s, some ss => some (s :: ss)
    | _, _ => none

/-- Unpadded base64 decoding (the `STANDARD_NO_PAD` engine's `decode`). -/
def b64Decode (chars : List Nat) : Option (List Nat) :=
  match b64DecodeChars chars with
  | none => none
  | some ss => b64DecodeSextets ss

/-! ## The `gen` module -/

/-- Structure `AdminGenerator` from `gen.rs`. -/
structure AdminGenerator where
  parameters : LicenseStructParameters
  ivs : List (List Nat)

/-- Enum `LicenseGenError` from `gen.rs`. -/
inductive LicenseGenError where
  | invalidSeedLen
deriving DecidableEq

/-- Method `AdminGenerator::generate_license` from `gen.rs`. -/
def AdminGenerator.generate_license (g : AdminGenerator) (seed : List Nat) :
    Except LicenseGenError License :=
  if seed.length ≠ g.parameters.seed_length then .error .invalidSeedLen
  else
    let payload := g.ivs.map fun iv => generate_key_chunk iv seed g.parameters.chunk_size
    let checksum := generate_checksum seed payload
    .ok { seed := seed, payload := payload, checksum := checksum }

/-- Model of the `OsRng` draws consumed by `new_with_random_ivs`: the value
returned by the i-th `gen_range` call (the compiled inline `gen` module of
`lib.rs` draws from `gen_range(1..10)`; the uncompiled split copy in
`gen.rs` differs only in drawing from `gen_range(10..16)`), and the bytes
produced by the two `fill` phases of iteration i (the per-byte loop, then
the whole-buffer `fill_bytes` that overwrites it). -/
structure RandomSource where
  lenChoice : Nat → Nat
  firstFill : Nat → Nat → Nat
  secondFill : Nat → Nat → Nat

/-- Models `rng.fill_bytes(&mut buf)`: every position of the buffer is
overwritten with a fresh random byte; the length is preserved. -/
def fillBytes (fill : Nat → Nat) (buf : List Nat) : List Nat :=
  (List.range buf.length).map fill

/-- Method `AdminGenerator::new_with_random_ivs` as compiled from the inline
`gen` module of `lib.rs`, with the random draws passed in explicitly.
Iteration i draws a length in `1..10` (the range is the only difference from
the uncompiled `gen.rs` copy, which draws in `10..16`), builds an IV of that
length byte by byte, then overwrites it whole with `fill_bytes`. -/
def AdminGenerator.new_with_random_ivs (parameters : LicenseStructParameters)
    (rng : RandomSource) : AdminGenerator :=
  { parameters := parameters,
    ivs := (List.range parameters.payload_length).map fun i =>
      fillBytes (rng.secondFill i) ((List.range (rng.lenChoice i)).map (rng.firstFill i)) }

/-- Method `License::to_bytes` from `gen.rs`:
`[seed, payload.concat(), checksum].concat()`. -/
def License.to_bytes (l : License) : List Nat := l.seed ++ l.payload.flatten ++ l.checksum

/-- The dash-insertion loop of `License::to_human_readable`: a `-` (byte 45)
is emitted before the character at index `i` whenever `i % 4 == 0 && i != 0`. -/
def dashedFrom : Nat → List Nat → List Nat
  | _, [] => []
  | i, c :: cs => (if i % 4 = 0 ∧ i ≠ 0 then [45, c] else [c]) ++ dashedFrom (i + 1) cs

/-- Method `License::to_human_readable` from `gen.rs`: unpadded base64 of
`to_bytes`, with the dash insertion applied to the enumerated characters. -/
def License.to_human_readable (l : License) : List Nat :=
  dashedFrom 0 (b64Encode l.to_bytes)

/-! ## The `check` module -/

/-- Structure `LicenseCheckInfo` from `check.rs`. -/
structure LicenseCheckInfo where
  known_iv : List Nat
  iv_index : Nat

/-- Enum `LicenseParseError` from `check.rs`. -/
inductive LicenseParseError where
  | invalidLength
deriving DecidableEq

/-- Enum `HumanReadableParseError` from `check.rs` (the `base64::DecodeError`
payload is dropped — only its occurrence matters to the crate's callers). -/
inductive HumanReadableParseError where
  | base64DecodeError
  | parseBytesError (e : LicenseParseError)
deriving DecidableEq

/-- Struct `WrongChecksum` from `check.rs` (`ChecksumDoesntMatch` in the
older `lib.rs` copy). -/
inductive ChecksumVerifyError where
  | checksumDoesntMatch
deriving DecidableEq

/-- Enum `BlockCheckError` from `blockers.rs`. -/
inductive BlockCheckError where
  | badList
  | blocked
deriving DecidableEq

/-- The `Blocker` trait from `blockers.rs`, shallowly embedded: a blocker is
its `check_block` function. -/
def Blocker : Type := List Nat → Except BlockCheckError Unit

/-- Blocker `NoBlock` from `blockers.rs`. -/
def NoBlock : Blocker := fun _ => .ok ()

/-- Blocker `BuiltinBlocklist` from `blockers.rs`: blocked exactly when the
hardcoded list contains the seed. -/
def BuiltinBlocklist (list : List (List Nat)) : Blocker := fun seed =>
  if seed ∈ list then .error .blocked else .ok ()

/-- Outcome of the single blocking HTTP GET performed by
`RemoteFileBlocker::check_block`: the `reqwest::blocking::get` call can fail
(transport error), `error_for_status` can fail (non-success status),
`response.bytes()` can fail, or a body is obtained. -/
inductive HttpFetchResult where
  | transportError
  | statusError
  | bodyError
  | body (bytes : List Nat)

/-- Models `body.split(|x| *x == b'\n')`: splits on byte 10, keeping empty
pieces (an empty body yields one empty piece). -/
def splitNewlines : List Nat → List (List Nat)
  | [] => [[]]
  | b :: rest =>
    if b = 10 then [] :: splitNewlines rest
    else
      match splitNewlines rest with
      | [] => [[b]]
      | line :: lines => (b :: line) :: lines

/-- The decode loop of `RemoteFileBlocker::check_block`: base64-decodes each
line, aborting on the first line that fails to decode. -/
def decodeLines : List (List Nat) → Option (List (List Nat))
  | [] => some []
  | line :: rest =>
    match b64Decode line, decodeLines rest with
    | some b, some bs => some (b :: bs)
    | _, _ => none

/-- Method `RemoteFileBlocker::check_block` from `blockers.rs`, parameterized
by the outcome of the HTTP fetch its URL produces. -/
def RemoteFileBlocker.check_block (fetch : HttpFetchResult) (seed : List Nat) :
    Except BlockCheckError Unit :=
  match fetch with
  | .transportError => .error .badList
  | .statusError => .error .badList
  | .bodyError => .error .badList
  | .body bytes =>
    match decodeLines (splitNewlines bytes) with
    | none => .error .badList
    | some seeds => if seed ∈ seeds then .error .blocked else .ok ()

/-- Enum `LicenseVerifyResult` from `lib.rs`; the split `check.rs` returns
`Result<(), LicenseVerifyError>` instead, with `Ok(())` playing the role of
`LicenseGood` and identical error variants — the two carry the same
information, so one type models both. -/
inductive LicenseVerifyResult where
  | invalidIVIndex
  | checksumFailed
  | licenseGood
  | licenseForged
  | licenseBlocked (e : BlockCheckError)
deriving DecidableEq

/-- Method `License::verify_checksum` from `check.rs`. -/
def License.verify_checksum (l : License) : Except ChecksumVerifyError Unit :=
  if generate_checksum l.seed l.payload = l.checksum then .ok ()
  else .error .checksumDoesntMatch

/-- Method `License::from_license_bytes` from `check.rs` (`parse_bytes` in
the spec's vocabulary). -/
def License.from_license_bytes (license_bytes : List Nat)
    (params : LicenseStructParameters) : Except LicenseParseError License :=
  let payload_len_in_bytes := params.payload_length * params.chunk_size
  let should_len := params.seed_length + payload_len_in_bytes + CHECKSUM_LEN
  if license_bytes.length ≠ should_len then .error .invalidLength
  else
    let og_payload := (license_bytes.drop params.seed_length).take payload_len_in_bytes
    .ok { seed := license_bytes.take params.seed_length,
          payload := chunksOf params.chunk_size og_payload,
          checksum := license_bytes.drop (license_bytes.length - CHECKSUM_LEN) }

/-- Method `License::from_human_readable` from `check.rs`: filters out every
dash byte, base64-decodes the rest, then parses the bytes. -/
def License.from_human_readable (readable : List Nat)
    (params : LicenseStructParameters) : Except HumanReadableParseError License :=
  let filtered := readable.filter fun x => x != 45
  match b64Decode filtered with
  | none => .error .base64DecodeError
  | some d =>
    match License.from_license_bytes d params with
    | .ok p => .ok p
    | .error e => .error (.parseBytesError e)

/-- Function `verify_license` from `check.rs` (identical logic in `lib.rs`):
checksum first, then the IV index lookup, then the derived-chunk comparison,
then the blocker. -/
def verify_license (license : License) (info : LicenseCheckInfo) (blocker : Blocker) :
    LicenseVerifyResult :=
  match license.verify_checksum with
  | .error _ => .checksumFailed
  | .ok _ =>
    match license.payload[info.iv_index]? with
    | none => .invalidIVIndex
    | some t =>
      if t = generate_key_chunk info.known_iv license.seed t.length then
        match blocker license.seed with
        | .error e => .licenseBlocked e
        | .ok _ => .licenseGood
      else .licenseForged

/-- Modelled from the spec: the claim reads the separator as inserted
"after encoded-character indices 4, 8, 12, … counting from zero", so this
definition emits `-` after the character at index `i` whenever
`i % 4 == 0 && i != 0`.  It is compared against `dashedFrom`, which embeds
the source's loop (dash emitted before such indices). -/
def specDashedFrom : Nat → List Nat → List Nat
  | _, [] => []
  | i, c :: cs => (if i % 4 = 0 ∧ i ≠ 0 then [c, 45] else [c]) ++ specDashedFrom (i + 1) cs

/-- Joins groups of characters with a single dash between consecutive
groups (no leading or trailing dash). -/
def joinDash : List (List Nat) → List Nat
  | [] => []
  | [g] => g
  | g :: gs => g ++ 45 :: joinDash gs

/-! ## Lemmas about chunking and flattening -/

theorem chunksOfAux_nil (k fuel : Nat) : chunksOfAux k fuel [] = [] := by
  cases fuel <;> rfl

theorem flatten_length_const (P : List (List Nat)) (k : Nat)
    (h : ∀ c ∈ P, c.length = k) : P.flatten.length = P.length * k := by
  induction P with
  | nil => simp
  | cons c rest ih =>
    simp only [List.flatten_cons, List.length_append, List.length_cons]
    rw [h c (by simp), ih (fun x hx => h x (by simp [hx]))]
    ring

theorem chunksOfAux_flatten (k : Nat) (hk : 0 < k) :
    ∀ (P : List (List Nat)) (fuel : Nat), (∀ c ∈ P, c.length = k) →
      P.flatten.length ≤ fuel → chunksOfAux k fuel P.flatten = P := by
  intro P
  induction P with
  | nil => intro fuel _ _; exact chunksOfAux_nil k fuel
  | cons c rest ih =>
    intro fuel hlen hfuel
    have hc : c.length = k := hlen c (by simp)
    have hpos : 0 < (c ++ rest.flatten).length := by
      rw [List.length_append]
      omega
    simp only [List.flatten_cons] at hfuel ⊢
    cases fuel with
    | zero =>
      exfalso
      simp only [List.length_append] at hfuel hpos
      omega
    | succ f =>
      cases hcc : c ++ rest.flatten with
      | nil =>
        rw [hcc] at hpos
        simp at hpos
      | cons x xs =>
        show (x :: xs).take k :: chunksOfAux k f ((x :: xs).drop k) = c :: rest
        rw [← hcc, List.take_left' hc, List.drop_left' hc]
        have hrest : rest.flatten.length ≤ f := by
          have := List.length_append c rest.flatten
          omega
        rw [ih f (fun y hy => hlen y (List.mem_cons_of_mem _ hy)) hrest]

theorem chunksOf_flatten (k : Nat) (P : List (List Nat)) (hk : 0 < k)
    (h : ∀ c ∈ P, c.length = k) : chunksOf k P.flatten = P := by
  unfold chunksOf
  rw [if_neg (by omega)]
  exact chunksOfAux_flatten k hk P P.flatten.length h (Nat.le_refl _)

/-- Re-taking a prefix with its own length is the identity. -/
theorem take_length_take (d : List Nat) (n : Nat) : d.take ((d.take n).length) = d.take n := by
  rw [List.take_eq_take]
  simp [List.length_take]

/-- Round trip at the byte level: parsing the serialization of a License whose
field lengths match the parameters recovers it. -/
theorem from_license_bytes_to_bytes (L : License) (params : LicenseStructParameters)
    (hseed : L.seed.length = params.seed_length)
    (hplen : L.payload.length = params.payload_length)
    (hchunk : ∀ c ∈ L.payload, c.length = params.chunk_size)
    (hcs : L.checksum.length = CHECKSUM_LEN)
    (hk : 0 < params.chunk_size) :
    License.from_license_bytes L.to_bytes params = .ok L := by
  have hflat : L.payload.flatten.length = params.payload_length * params.chunk_size := by
    rw [flatten_length_const L.payload params.chunk_size hchunk, hplen]
  have hlen : L.to_bytes.length =
      params.seed_length + params.payload_length * params.chunk_size + CHECKSUM_LEN := by
    unfold License.to_bytes
    simp only [List.length_append]
    rw [hseed, hflat, hcs]
  unfold License.from_license_bytes
  rw [if_neg (by omega)]
  have hseedpart : L.to_bytes.take params.seed_length = L.seed := by
    unfold License.to_bytes
    rw [List.append_assoc, ← hseed, List.take_left]
  have hdropseed : L.to_bytes.drop params.seed_length = L.payload.flatten ++ L.checksum := by
    unfold License.to_bytes
    rw [List.append_assoc, ← hseed, List.drop_left]
  have hpayloadpart : (L.to_bytes.drop params.seed_length).take
      (params.payload_length * params.chunk_size) = L.payload.flatten := by
    rw [hdropseed, ← hflat, List.take_left]
  have hcspart : L.to_bytes.drop (L.to_bytes.length - CHECKSUM_LEN) = L.checksum := by
    unfold License.to_bytes
    have : (L.seed ++ L.payload.flatten ++ L.checksum).length - CHECKSUM_LEN =
        (L.seed ++ L.payload.flatten).length := by
      simp only [List.length_append, hcs]
      omega
    rw [this, List.drop_left]
  simp only [hseedpart, hpayloadpart, hcspart]
  rw [chunksOf_flatten params.chunk_size L.payload hk hchunk]

/-! ## Lemmas about base64 -/

theorem b64DecodeChar_encode : ∀ s < 64, b64DecodeChar (b64EncodeChar s) = some s := by decide

theorem b64EncodeSextets_lt : ∀ (l : List Nat), (∀ b ∈ l, b < 256) →
    ∀ s ∈ b64EncodeSextets l, s < 64
  | [] => by intro _ s hs; simp [b64EncodeSextets] at hs
  | [b0] => by
    intro h s hs
    have hb0 : b0 < 256 := h b0 (by simp)
    simp [b64EncodeSextets] at hs
    rcases hs with rfl | rfl <;> omega
  | [b0, b1] => by
    intro h s hs
    have hb0 : b0 < 256 := h b0 (by simp)
    have hb1 : b1 < 256 := h b1 (by simp)
    simp [b64EncodeSextets] at hs
    rcases hs with rfl | rfl | rfl <;> omega
  | b0 :: b1 :: b2 :: rest => by
    intro h s hs
    have hb0 : b0 < 256 := h b0 (by simp)
    have hb1 : b1 < 256 := h b1 (by simp)
    have hb2 : b2 < 256 := h b2 (by simp)
    have ih := b64EncodeSextets_lt rest (fun y hy => h y (by simp [hy]))
    simp only [b64EncodeSextets, List.mem_cons] at hs
    rcases hs with rfl | rfl | rfl | rfl | hmem
    · omega
    · omega
    · omega
    · omega
    · exact ih s hmem

theorem b64DecodeChars_encode : ∀ (ss : List Nat), (∀ s ∈ ss, s < 64) →
    b64DecodeChars (ss.map b64EncodeChar) = some ss := by
  intro ss
  induction ss with
  | nil => intro _; rfl
  | cons s tail ih =>
    intro h
    have hs : s < 64 := h s (by simp)
    simp only [List.map_cons, b64DecodeChars]
    rw [b64DecodeChar_encode s hs, ih (fun y hy => h y (by simp [hy]))]

theorem b64DecodeSextets_encode : ∀ (l : List Nat), (∀ b ∈ l, b < 256) →
    b64DecodeSextets (b64EncodeSextets l) = some l
  | [] => by intro _; rfl
  | [b0] => by
    intro h
    have hb0 : b0 < 256 := h b0 (by simp)
    show b64DecodeSextets [b0 / 4, b0 % 4 * 16] = some [b0]
    unfold b64DecodeSextets
    rw [if_pos (by omega)]
    have e0 : b0 / 4 * 4 + b0 % 4 * 16 / 16 = b0 := by omega
    rw [e0]
  | [b0, b1] => by
    intro h
    have hb0 : b0 < 256 := h b0 (by simp)
    have hb1 : b1 < 256 := h b1 (by simp)
    show b64DecodeSextets [b0 / 4, b0 % 4 * 16 + b1 / 16, b1 % 16 * 4] = some [b0, b1]
    unfold b64DecodeSextets
    rw [if_pos (by omega)]
    have e0 : b0 / 4 * 4 + (b0 % 4 * 16 + b1 / 16) / 16 = b0 := by omega
    have e1 : (b0 % 4 * 16 + b1 / 16) % 16 * 16 + b1 % 16 * 4 / 4 = b1 := by omega
    rw [e0, e1]
  | b0 :: b1 :: b2 :: rest => by
    intro h
    have hb0 : b0 < 256 := h b0 (by simp)
    have hb1 : b1 < 256 := h b1 (by simp)
    have hb2 : b2 < 256 := h b2 (by simp)
    have ih := b64DecodeSextets_encode rest (fun y hy => h y (by simp [hy]))
    simp only [b64EncodeSextets, b64DecodeSextets, ih]
    simp only [Option.some.injEq, List.cons.injEq]
    refine ⟨by omega, by omega, by omega, trivial⟩

theorem b64Decode_encode (l : List Nat) (h : ∀ b ∈ l, b < 256) :
    b64Decode (b64Encode l) = some l := by
  unfold b64Decode b64Encode
  rw [b64DecodeChars_encode _ (b64EncodeSextets_lt l h)]
  exact b64DecodeSextets_encode l h

theorem b64EncodeChar_ne_dash (n : Nat) : b64EncodeChar n ≠ 45 := by
  unfold b64EncodeChar
  repeat' split
  all_goals omega

theorem b64Encode_ne_dash (l : List Nat) : ∀ c ∈ b64Encode l, c ≠ 45 := by
  intro c hc
  unfold b64Encode at hc
  rcases List.mem_map.mp hc with ⟨s, _, rfl⟩
  exact b64EncodeChar_ne_dash s

/-! ## Lemmas about the dash insertion -/

theorem filter_dashedFrom : ∀ (cs : List Nat) (i : Nat), (∀ c ∈ cs, c ≠ 45) →
    (dashedFrom i cs).filter (fun x => x != 45) = cs
  | [], _ => by intro _; rfl
  | c :: cs, i => by
    intro h
    have hc : c ≠ 45 := h c (by simp)
    have ih := filter_dashedFrom cs (i + 1) (fun y hy => h y (by simp [hy]))
    unfold dashedFrom
    split
    · simp [List.filter_append, List.filter_cons, hc, ih]
    · simp [List.filter_append, List.filter_cons, hc, ih]

/-! ## Lemmas about chunk unfolding (used for the dash characterization) -/

theorem chunksOfAux_fuel (k : Nat) (hk : 0 < k) : ∀ (f₁ f₂ : Nat) (l : List Nat),
    l.length ≤ f₁ → l.length ≤ f₂ → chunksOfAux k f₁ l = chunksOfAux k f₂ l := by
  intro f₁
  induction f₁ with
  | zero =>
    intro f₂ l h1 _
    have : l = [] := List.eq_nil_of_length_eq_zero (by omega)
    subst this
    rw [chunksOfAux_nil, chunksOfAux_nil]
  | succ a ih =>
    intro f₂ l h1 h2
    cases l with
    | nil => rw [chunksOfAux_nil, chunksOfAux_nil]
    | cons x xs =>
      cases f₂ with
      | zero => simp at h2
      | succ b =>
        show (x :: xs).take k :: chunksOfAux k a ((x :: xs).drop k) =
             (x :: xs).take k :: chunksOfAux k b ((x :: xs).drop k)
        simp only [List.length_cons] at h1 h2
        have hd : ((x :: xs).drop k).length ≤ a := by
          simp only [List.length_drop, List.length_cons]
          omega
        have hd2 : ((x :: xs).drop k).length ≤ b := by
          simp only [List.length_drop, List.length_cons]
          omega
        rw [ih b _ hd hd2]

theorem chunksOf_cons_of_ne_nil (k : Nat) (l : List Nat) (hk : 0 < k) (hl : l ≠ []) :
    chunksOf k l = l.take k :: chunksOf k (l.drop k) := by
  unfold chunksOf
  rw [if_neg (by omega), if_neg (by omega)]
  cases l with
  | nil => exact absurd rfl hl
  | cons x xs =>
    show (x :: xs).take k :: chunksOfAux k xs.length ((x :: xs).drop k) =
         (x :: xs).take k :: chunksOfAux k ((x :: xs).drop k).length ((x :: xs).drop k)
    rw [chunksOfAux_fuel k hk xs.length ((x :: xs).drop k).length ((x :: xs).drop k)
        (by simp only [List.length_drop, List.length_cons]; omega) (Nat.le_refl _)]

theorem chunksOf_ne_nil (k : Nat) (l : List Nat) (hk : 0 < k) (hl : l ≠ []) :
    chunksOf k l ≠ [] := by
  rw [chunksOf_cons_of_ne_nil k l hk hl]
  simp

/-! ## Claim C3: byte-level round trip -/

/-- C3: for every License constructed under a Parameter Set (field lengths
exactly as the parameters prescribe, with the spec's constraint that the
chunk size is positive), parsing the serialization succeeds and returns an
equal License. -/
theorem claim_C3 (L : License) (params : LicenseStructParameters)
    (hseed : L.seed.length = params.seed_length)
    (hplen : L.payload.length = params.payload_length)
    (hchunk : ∀ c ∈ L.payload, c.length = params.chunk_size)
    (hcs : L.checksum.length = CHECKSUM_LEN)
    (hk : 0 < params.chunk_size) :
    License.from_license_bytes L.to_bytes params = .ok L :=
  from_license_bytes_to_bytes L params hseed hplen hchunk hcs hk

theorem claim_C3_witness :
    License.from_license_bytes
      (License.to_bytes ⟨[1, 2], [[3], [4]], [5, 6]⟩) ⟨2, 2, 1⟩ =
      .ok ⟨[1, 2], [[3], [4]], [5, 6]⟩ :=
  claim_C3 ⟨[1, 2], [[3], [4]], [5, 6]⟩ ⟨2, 2, 1⟩ (by decide) (by decide)
    (by decide) (by decide) (by decide)

/-! ## Claim C2: human-readable round trip -/

/-- C2: for every License valid under a Parameter Set, decoding the
human-readable form succeeds and returns an equal License.  Validity under
the parameters means the field lengths match (bytes are below 256 because
the fields model `Vec<u8>`, and the chunk size is positive as the spec's
Parameter Set requires). -/
theorem claim_C2 (L : License) (params : LicenseStructParameters)
    (hseed : L.seed.length = params.seed_length)
    (hplen : L.payload.length = params.payload_length)
    (hchunk : ∀ c ∈ L.payload, c.length = params.chunk_size)
    (hcs : L.checksum.length = CHECKSUM_LEN)
    (hk : 0 < params.chunk_size)
    (hbytes : ∀ b ∈ L.to_bytes, b < 256) :
    License.from_human_readable L.to_human_readable params = .ok L := by
  unfold License.from_human_readable License.to_human_readable
  rw [filter_dashedFrom (b64Encode L.to_bytes) 0 (b64Encode_ne_dash L.to_bytes)]
  simp only [b64Decode_encode L.to_bytes hbytes,
             from_license_bytes_to_bytes L params hseed hplen hchunk hcs hk]

theorem claim_C2_witness :
    License.from_human_readable
      (License.to_human_readable ⟨[7, 8], [[9], [10]], [11, 12]⟩) ⟨2, 2, 1⟩ =
      .ok ⟨[7, 8], [[9], [10]], [11, 12]⟩ :=
  claim_C2 ⟨[7, 8], [[9], [10]], [11, 12]⟩ ⟨2, 2, 1⟩ (by decide) (by decide)
    (by decide) (by decide) (by decide) (by decide)

/-! ## Claim C10: decoding ignores dash placement -/

/-- C10: `from_human_readable` depends only on the subsequence of non-dash
bytes of its input; in particular inserting a dash anywhere (including
positions `to_human_readable` never produces) leaves the result unchanged. -/
theorem claim_C10 :
    (∀ (s t : List Nat) (params : LicenseStructParameters),
      s.filter (fun x => x != 45) = t.filter (fun x => x != 45) →
      License.from_human_readable s params = License.from_human_readable t params) ∧
    (∀ (u v : List Nat) (params : LicenseStructParameters),
      License.from_human_readable (u ++ 45 :: v) params =
      License.from_human_readable (u ++ v) params) := by
  constructor
  · intro s t params h
    unfold License.from_human_readable
    rw [h]
  · intro u v params
    have h : (u ++ 45 :: v).filter (fun x => x != 45) =
        (u ++ v).filter (fun x => x != 45) := by
      simp [List.filter_append, List.filter_cons]
    unfold License.from_human_readable
    rw [h]

theorem claim_C10_witness :
    License.from_human_readable [45, 65, 66] LicenseStructParameters.default =
    License.from_human_readable [65, 45, 66, 45] LicenseStructParameters.default :=
  claim_C10.1 [45, 65, 66] [65, 45, 66, 45] LicenseStructParameters.default (by decide)

/-! ## Claim C8: dash positions in the human-readable form -/

/-- C8 fails as stated: on the License `⟨[0], [[0, 0]], [0, 0]⟩` (whose
serialization encodes to seven `A` characters) the code produces
`AAAA-AAA` — the dash precedes index 4 — while the claimed positions
(after index 4) would give `AAAAA-AA`. -/
theorem claim_C8_counterexample :
    License.to_human_readable ⟨[0], [[0, 0]], [0, 0]⟩ = [65, 65, 65, 65, 45, 65, 65, 65] ∧
    specDashedFrom 0 (b64Encode (License.to_bytes ⟨[0], [[0, 0]], [0, 0]⟩)) =
      [65, 65, 65, 65, 65, 45, 65, 65] ∧
    License.to_human_readable ⟨[0], [[0, 0]], [0, 0]⟩ ≠
      specDashedFrom 0 (b64Encode (License.to_bytes ⟨[0], [[0, 0]], [0, 0]⟩)) := by
  refine ⟨by decide, by decide, by decide⟩

theorem dashedFrom_congr_mod : ∀ (cs : List Nat) (i j : Nat),
    i % 4 = j % 4 → i ≠ 0 → j ≠ 0 → dashedFrom i cs = dashedFrom j cs
  | [], _, _ => by intro _ _ _; rfl
  | c :: cs, i, j => by
    intro hmod hi hj
    have ih := dashedFrom_congr_mod cs (i + 1) (j + 1) (by omega) (by omega) (by omega)
    unfold dashedFrom
    rw [ih]
    by_cases h4 : i % 4 = 0
    · rw [if_pos ⟨h4, hi⟩, if_pos ⟨by omega, hj⟩]
    · rw [if_neg (by tauto), if_neg (fun hc => h4 (by omega))]

theorem dashedFrom_four (cs : List Nat) :
    dashedFrom 4 cs = if cs = [] then [] else 45 :: dashedFrom 0 cs := by
  cases cs with
  | nil => rfl
  | cons c cs =>
    rw [if_neg (by simp)]
    show (if 4 % 4 = 0 ∧ 4 ≠ 0 then [45, c] else [c]) ++ dashedFrom 5 cs =
      45 :: ((if 0 % 4 = 0 ∧ 0 ≠ 0 then [45, c] else [c]) ++ dashedFrom 1 cs)
    rw [if_pos (by omega), if_neg (by omega)]
    rw [dashedFrom_congr_mod cs 5 1 (by omega) (by omega) (by omega)]
    rfl

theorem dashedFrom_zero_take_drop : ∀ (cs : List Nat),
    dashedFrom 0 cs = cs.take 4 ++ dashedFrom 4 (cs.drop 4)
  | [] => by simp [dashedFrom]
  | [a] => by simp [dashedFrom]
  | [a, b] => by simp [dashedFrom]
  | [a, b, c] => by simp [dashedFrom]
  | a :: b :: c :: d :: rest => by simp [dashedFrom]

theorem dashedFrom_joinDash (cs : List Nat) :
    dashedFrom 0 cs = joinDash (chunksOf 4 cs) := by
  by_cases hnil : cs = []
  · subst hnil; rfl
  · rw [dashedFrom_zero_take_drop cs, chunksOf_cons_of_ne_nil 4 cs (by omega) hnil,
        dashedFrom_four]
    by_cases hdrop : cs.drop 4 = []
    · rw [if_pos hdrop, hdrop]
      show cs.take 4 ++ [] = joinDash (cs.take 4 :: chunksOf 4 [])
      simp [chunksOf, joinDash]
    · rw [if_neg hdrop]
      have ih := dashedFrom_joinDash (cs.drop 4)
      rw [ih]
      obtain ⟨g, gs, hgg⟩ :=
        List.exists_cons_of_ne_nil (chunksOf_ne_nil 4 (cs.drop 4) (by omega) hdrop)
      rw [hgg]
      rfl
termination_by cs.length
decreasing_by
  have : 0 < cs.length := List.length_pos.mpr hnil
  simp only [List.length_drop]
  omega

/-- C8 amended: `to_human_readable` is the unpadded base64 encoding of
`to_bytes` with a dash between consecutive groups of four encoded
characters — i.e. the dash is inserted before (not after) encoded-character
indices 4, 8, 12, …, never before the first character. -/
theorem claim_C8_amended (L : License) :
    License.to_human_readable L = joinDash (chunksOf 4 (b64Encode L.to_bytes)) :=
  dashedFrom_joinDash (b64Encode L.to_bytes)

/-! ## Length lemmas for the digest pipeline -/

theorem round1_length (kw : Nat × Nat) (st : List Nat) (h : st.length = 8) :
    (round1 kw st).length = 8 := by
  obtain ⟨k, w⟩ := kw
  cases st with
  | nil => simp at h
  | cons a st =>
    cases st with
    | nil => simp at h
    | cons b st =>
      cases st with
      | nil => simp at h
      | cons c st =>
        cases st with
        | nil => simp at h
        | cons d st =>
          cases st with
          | nil => simp at h
          | cons e st =>
            cases st with
            | nil => simp at h
            | cons f st =>
              cases st with
              | nil => simp at h
              | cons g st =>
                cases st with
                | nil => simp at h
                | cons h8 st =>
                  cases st with
                  | nil => rfl
                  | cons x st => simp at h

theorem compressRounds_length : ∀ (kws : List (Nat × Nat)) (st : List Nat),
    st.length = 8 → (compressRounds kws st).length = 8
  | [], _ => fun h => h
  | kw :: rest, st => fun h => compressRounds_length rest _ (round1_length kw st h)

theorem processBlock_length (h : List Nat) (b : List Nat) (hh : h.length = 8) :
    (processBlock h b).length = 8 := by
  unfold processBlock
  rw [List.length_zipWith, compressRounds_length _ _ hh, hh]
  simp

theorem foldl_processBlock_length : ∀ (blocks : List (List Nat)) (h : List Nat),
    h.length = 8 → (blocks.foldl processBlock h).length = 8
  | [], _ => fun hh => hh
  | b :: rest, h => fun hh => foldl_processBlock_length rest _ (processBlock_length h b hh)

theorem map_beBytes4_flatten_length (l : List Nat) :
    ((l.map beBytes4).flatten).length = 4 * l.length := by
  induction l with
  | nil => rfl
  | cons x rest ih =>
    simp only [List.map_cons, List.flatten_cons, List.length_append, ih, List.length_cons]
    show (beBytes4 x).length + 4 * rest.length = 4 * (rest.length + 1)
    show 4 + 4 * rest.length = 4 * (rest.length + 1)
    omega

theorem sha256_length (msg : List Nat) : (sha256 msg).length = 32 := by
  unfold sha256
  rw [map_beBytes4_flatten_length, foldl_processBlock_length _ sha256H0 (by rfl)]

theorem generate_key_chunk_length (iv seed : List Nat) (cs : Nat) (hcs : cs ≤ 32) :
    (generate_key_chunk iv seed cs).length = cs := by
  unfold generate_key_chunk
  rw [List.length_take, sha256_length]
  omega

/-! ## The shape of generated licenses -/

/-- A successful `generate_license` call returns exactly the record the
source builds: the input seed, one derived chunk per IV, and the checksum
over the fresh payload. -/
theorem generate_license_ok (g : AdminGenerator) (seed : List Nat)
    (hseed : seed.length = g.parameters.seed_length) :
    g.generate_license seed =
      .ok ⟨seed,
           g.ivs.map fun iv => generate_key_chunk iv seed g.parameters.chunk_size,
           generate_checksum seed
             (g.ivs.map fun iv => generate_key_chunk iv seed g.parameters.chunk_size)⟩ := by
  unfold AdminGenerator.generate_license
  rw [if_neg (by omega)]

/-! ## Claim C1: generated licenses verify -/

/-- C1: for every generator whose IV set matches its parameters, every seed
of the configured length and every index below `payload_length`, verifying
the generated license against the generator's IV at that index with
`NoBlock` yields `LicenseGood`. -/
theorem claim_C1 (g : AdminGenerator) (seed : List Nat) (i : Nat) (iv : List Nat)
    (L : License)
    (hlen : g.ivs.length = g.parameters.payload_length)
    (hseed : seed.length = g.parameters.seed_length)
    (hi : i < g.parameters.payload_length)
    (hiv : g.ivs[i]? = some iv)
    (hgen : g.generate_license seed = .ok L) :
    verify_license L ⟨iv, i⟩ NoBlock = .licenseGood := by
  rw [generate_license_ok g seed hseed] at hgen
  have hL : L = ⟨seed,
      g.ivs.map fun iv => generate_key_chunk iv seed g.parameters.chunk_size,
      generate_checksum seed
        (g.ivs.map fun iv => generate_key_chunk iv seed g.parameters.chunk_size)⟩ := by
    cases hgen
    rfl
  subst hL
  have hck : License.verify_checksum ⟨seed,
      g.ivs.map fun iv => generate_key_chunk iv seed g.parameters.chunk_size,
      generate_checksum seed
        (g.ivs.map fun iv => generate_key_chunk iv seed g.parameters.chunk_size)⟩ = .ok () := by
    unfold License.verify_checksum
    rw [if_pos rfl]
  have hpay : (g.ivs.map fun iv =>
      generate_key_chunk iv seed g.parameters.chunk_size)[i]? =
      some (generate_key_chunk iv seed g.parameters.chunk_size) := by
    rw [List.getElem?_map, hiv]
    rfl
  unfold verify_license
  simp only [hck, hpay]
  have hts : generate_key_chunk iv seed
      ((generate_key_chunk iv seed g.parameters.chunk_size).length) =
      generate_key_chunk iv seed g.parameters.chunk_size := by
    unfold generate_key_chunk
    exact take_length_take _ _
  rw [hts, if_pos rfl]
  rfl

theorem claim_C1_witness :
    verify_license ⟨[5], [[251, 197]], [28, 37]⟩ ⟨[7], 0⟩ NoBlock =
      LicenseVerifyResult.licenseGood :=
  claim_C1 ⟨⟨1, 1, 2⟩, [[7]]⟩ [5] 0 [7] ⟨[5], [[251, 197]], [28, 37]⟩
    (by decide) (by decide) (by decide) (by decide) (by decide)

/-! ## Claim C4: generate_license contract -/

/-- C4: `generate_license` fails with `InvalidSeedLen` exactly when the seed
length differs from the configured one; on success the License carries the
input seed, one derived chunk per IV (at matching indices), and the
checksum over the payload. -/
theorem claim_C4 (g : AdminGenerator) (seed : List Nat) :
    (g.generate_license seed = .error .invalidSeedLen ↔
      seed.length ≠ g.parameters.seed_length) ∧
    (∀ L, g.generate_license seed = .ok L →
      L.seed = seed ∧
      L.payload = (g.ivs.map fun iv => generate_key_chunk iv seed g.parameters.chunk_size) ∧
      L.checksum = generate_checksum seed L.payload ∧
      ∀ (i : Nat) (iv : List Nat), g.ivs[i]? = some iv →
        L.payload[i]? = some (generate_key_chunk iv seed g.parameters.chunk_size)) := by
  by_cases hlen : seed.length = g.parameters.seed_length
  · constructor
    · rw [generate_license_ok g seed hlen]
      constructor
      · intro h
        cases h
      · intro h
        exact absurd hlen h
    · intro L hL
      rw [generate_license_ok g seed hlen] at hL
      cases hL
      refine ⟨rfl, rfl, rfl, ?_⟩
      intro i iv hiv
      rw [List.getElem?_map, hiv]
      rfl
  · have herr : g.generate_license seed = .error .invalidSeedLen := by
      unfold AdminGenerator.generate_license
      rw [if_pos (by omega)]
    constructor
    · rw [herr]
      exact ⟨fun _ => hlen, fun _ => rfl⟩
    · intro L hL
      rw [herr] at hL
      cases hL

theorem claim_C4_witness :
    ((AdminGenerator.mk ⟨1, 1, 2⟩ [[7]]).generate_license [4, 4] = .error .invalidSeedLen ↔
      ([4, 4] : List Nat).length ≠ 1) ∧
    ((AdminGenerator.mk ⟨1, 1, 2⟩ [[7]]).generate_license [5] =
      .ok ⟨[5], [[251, 197]], [28, 37]⟩ ∧
     ([[251, 197]] : List (List Nat)) =
      ([[7]] : List (List Nat)).map fun iv => generate_key_chunk iv [5] 2) :=
  ⟨(claim_C4 ⟨⟨1, 1, 2⟩ , [[7]]⟩ [4, 4]).1, by decide⟩

/-! ## Claim C5: verification order and outcomes -/

/-- C5: the verifier checks the checksum first (a checksum mismatch yields
`ChecksumFailed` regardless of the IV index), then the IV index (an
out-of-range index yields `InvalidIVIndex` whenever the checksum matches),
then the derived-chunk comparison (`LicenseForged` on mismatch), and only
then the blocker (`LicenseBlocked` on a blocker error, else `LicenseGood`). -/
theorem claim_C5 (license : License) (info : LicenseCheckInfo) (blocker : Blocker) :
    (generate_checksum license.seed license.payload ≠ license.checksum →
      verify_license license info blocker = .checksumFailed) ∧
    (generate_checksum license.seed license.payload = license.checksum →
      license.payload.length ≤ info.iv_index →
      verify_license license info blocker = .invalidIVIndex) ∧
    (∀ t, generate_checksum license.seed license.payload = license.checksum →
      license.payload[info.iv_index]? = some t →
      t ≠ generate_key_chunk info.known_iv license.seed t.length →
      verify_license license info blocker = .licenseForged) ∧
    (∀ t, generate_checksum license.seed license.payload = license.checksum →
      license.payload[info.iv_index]? = some t →
      t = generate_key_chunk info.known_iv license.seed t.length →
      blocker license.seed = .ok () →
      verify_license license info blocker = .licenseGood) ∧
    (∀ t e, generate_checksum license.seed license.payload = license.checksum →
      license.payload[info.iv_index]? = some t →
      t = generate_key_chunk info.known_iv license.seed t.length →
      blocker license.seed = .error e →
      verify_license license info blocker = .licenseBlocked e) := by
  have hbad : generate_checksum license.seed license.payload ≠ license.checksum →
      License.verify_checksum license = .error .checksumDoesntMatch := by
    intro h
    unfold License.verify_checksum
    rw [if_neg h]
  have hgood : generate_checksum license.seed license.payload = license.checksum →
      License.verify_checksum license = .ok () := by
    intro h
    unfold License.verify_checksum
    rw [if_pos h]
  refine ⟨?_, ?_, ?_, ?_, ?_⟩
  · intro h
    unfold verify_license
    simp only [hbad h]
  · intro h hidx
    unfold verify_license
    simp only [hgood h, List.getElem?_eq_none hidx]
  · intro t h ht hne
    unfold verify_license
    simp only [hgood h, ht]
    rw [if_neg hne]
  · intro t h ht heq hb
    unfold verify_license
    simp only [hgood h, ht, hb]
    rw [if_pos heq]
  · intro t e h ht heq hb
    unfold verify_license
    simp only [hgood h, ht]
    rw [if_pos heq, hb]

theorem claim_C5_witness :
    verify_license ⟨[1], [[2]], [0, 0]⟩ ⟨[9], 3⟩ NoBlock =
      LicenseVerifyResult.checksumFailed ∧
    verify_license ⟨[1], [[2]], [161, 40]⟩ ⟨[9], 3⟩ NoBlock =
      LicenseVerifyResult.invalidIVIndex ∧
    verify_license ⟨[1], [[2]], [161, 40]⟩ ⟨[9], 0⟩ NoBlock =
      LicenseVerifyResult.licenseForged ∧
    verify_license ⟨[5], [[251, 197]], [28, 37]⟩ ⟨[7], 0⟩
      (BuiltinBlocklist [[6]]) = LicenseVerifyResult.licenseGood ∧
    verify_license ⟨[5], [[251, 197]], [28, 37]⟩ ⟨[7], 0⟩
      (BuiltinBlocklist [[5]]) = LicenseVerifyResult.licenseBlocked .blocked :=
  ⟨(claim_C5 ⟨[1], [[2]], [0, 0]⟩ ⟨[9], 3⟩ NoBlock).1 (by decide),
   (claim_C5 ⟨[1], [[2]], [161, 40]⟩ ⟨[9], 3⟩ NoBlock).2.1 (by decide) (by decide),
   (claim_C5 ⟨[1], [[2]], [161, 40]⟩ ⟨[9], 0⟩ NoBlock).2.2.1 [2] (by decide) (by decide)
     (by decide),
   (claim_C5 ⟨[5], [[251, 197]], [28, 37]⟩ ⟨[7], 0⟩ (BuiltinBlocklist [[6]])).2.2.2.1
     [251, 197] (by decide) (by decide) (by decide) (by decide),
   (claim_C5 ⟨[5], [[251, 197]], [28, 37]⟩ ⟨[7], 0⟩ (BuiltinBlocklist [[5]])).2.2.2.2
     [251, 197] .blocked (by decide) (by decide) (by decide) (by decide)⟩

/-! ## Claim C6: single-byte payload flips and the checksum -/

theorem flatten_getD (cs : Nat) : ∀ (P : List (List Nat)) (i j : Nat),
    (∀ c ∈ P, c.length = cs) → i < P.length → j < cs →
    P.flatten.getD (i * cs + j) 0 = (P.getD i []).getD j 0
  | [], i, j => by
    intro _ hi _
    simp at hi
  | c :: rest, 0, j => by
    intro hlen _ hj
    have hc : c.length = cs := hlen c (by simp)
    simp only [List.flatten_cons, Nat.zero_mul, Nat.zero_add, List.getD_cons_zero]
    exact List.getD_append _ _ _ _ (by omega)
  | c :: rest, i + 1, j => by
    intro hlen hi hj
    have hc : c.length = cs := hlen c (by simp)
    have ih := flatten_getD cs rest i j (fun y hy => hlen y (by simp [hy]))
      (by simp at hi; omega) hj
    simp only [List.flatten_cons, List.getD_cons_succ]
    rw [show (i + 1) * cs + j = c.length + (i * cs + j) by rw [hc]; ring]
    rw [List.getD_append_right _ _ _ _ (by omega)]
    rw [show c.length + (i * cs + j) - c.length = i * cs + j by omega]
    exact ih

theorem getD_mem_of_lt {α : Type} (P : List α) (i : Nat) (d : α) (hi : i < P.length) :
    P.getD i d ∈ P := by
  rw [List.getD_eq_getElem P d hi]
  exact List.getElem_mem hi

theorem getD_set_self_of_lt {α : Type} (P : List α) (i : Nat) (d c : α) (hi : i < P.length) :
    (P.set i c).getD i d = c := by
  rw [List.getD_eq_getElem _ d (by rw [List.length_set]; exact hi)]
  exact List.getElem_set_self _

/-- Flipping one payload byte changes the flattened payload (the byte string
the checksum is computed over). -/
theorem flatten_set_ne (P : List (List Nat)) (cs i j v : Nat)
    (hlen : ∀ c ∈ P, c.length = cs) (hi : i < P.length) (hj : j < cs)
    (hv : v ≠ (P.getD i []).getD j 0) :
    (P.set i ((P.getD i []).set j v)).flatten ≠ P.flatten := by
  intro habs
  have hlen2 : ∀ c ∈ P.set i ((P.getD i []).set j v), c.length = cs := by
    intro c hc
    rcases List.mem_or_eq_of_mem_set hc with hmem | rfl
    · exact hlen c hmem
    · rw [List.length_set]
      exact hlen _ (getD_mem_of_lt P i [] hi)
  have h1 := flatten_getD cs (P.set i ((P.getD i []).set j v)) i j hlen2
    (by rw [List.length_set]; exact hi) hj
  have h2 := flatten_getD cs P i j hlen hi hj
  rw [habs, h2] at h1
  rw [getD_set_self_of_lt P i [] _ hi] at h1
  have hjlt : j < (P.getD i []).length := by
    rw [hlen _ (getD_mem_of_lt P i [] hi)]
    exact hj
  rw [getD_set_self_of_lt (P.getD i []) j 0 v hjlt] at h1
  exact hv h1.symm

/-- C6 fails as stated: the generator with parameters `(1, 1, 1)` and IV set
`[[31]]` turns seed `[0]` into the license `⟨[0], [[108]], [88, 254]⟩`, and
flipping its single payload byte from 108 to 158 leaves the recomputed
2-byte checksum unchanged, so `verify_checksum` still succeeds. -/
theorem claim_C6_counterexample :
    (AdminGenerator.mk ⟨1, 1, 1⟩ [[31]]).generate_license [0] =
      .ok ⟨[0], [[108]], [88, 254]⟩ ∧
    (158 : Nat) ≠ 108 ∧
    License.verify_checksum ⟨[0], [[158]], [88, 254]⟩ = .ok () := by
  refine ⟨by decide, by decide, by decide⟩

/-- C6 amended: flipping any single payload byte of a generated License
always changes the byte string the checksum is recomputed over, and
`verify_checksum` on the flipped license succeeds exactly when the 2-byte
truncated digest of the altered string still equals the stored checksum —
which the 2-byte checksum cannot rule out (see the counterexample). -/
theorem claim_C6_amended (g : AdminGenerator) (seed : List Nat) (L : License)
    (i j v : Nat)
    (hgen : g.generate_license seed = .ok L)
    (hcs32 : g.parameters.chunk_size ≤ 32)
    (hi : i < L.payload.length)
    (hj : j < g.parameters.chunk_size)
    (hv : v ≠ (L.payload.getD i []).getD j 0) :
    (L.payload.set i ((L.payload.getD i []).set j v)).flatten ≠ L.payload.flatten ∧
    (License.verify_checksum
        ⟨L.seed, L.payload.set i ((L.payload.getD i []).set j v), L.checksum⟩ = .ok () ↔
      generate_checksum L.seed (L.payload.set i ((L.payload.getD i []).set j v)) =
        L.checksum) := by
  have hseed : seed.length = g.parameters.seed_length := by
    by_contra hne
    unfold AdminGenerator.generate_license at hgen
    rw [if_pos (by omega)] at hgen
    cases hgen
  rw [generate_license_ok g seed hseed] at hgen
  have hL : L = ⟨seed,
      g.ivs.map fun iv => generate_key_chunk iv seed g.parameters.chunk_size,
      generate_checksum seed
        (g.ivs.map fun iv => generate_key_chunk iv seed g.parameters.chunk_size)⟩ := by
    cases hgen
    rfl
  have hchunklen : ∀ c ∈ L.payload, c.length = g.parameters.chunk_size := by
    intro c hc
    rw [hL] at hc
    simp only [List.mem_map] at hc
    obtain ⟨iv, _, rfl⟩ := hc
    exact generate_key_chunk_length iv seed g.parameters.chunk_size hcs32
  constructor
  · exact flatten_set_ne L.payload g.parameters.chunk_size i j v hchunklen hi hj hv
  · unfold License.verify_checksum
    constructor
    · intro h
      by_contra hne
      rw [if_neg hne] at h
      cases h
    · intro h
      rw [if_pos h]

theorem claim_C6_amended_witness :
    ((([[108]] : List (List Nat)).set 0 (([[108]] : List (List Nat)).getD 0 [] |>.set 0 158)).flatten ≠
      ([[108]] : List (List Nat)).flatten) ∧
    (License.verify_checksum
        ⟨[0], ([[108]] : List (List Nat)).set 0 (([[108]] : List (List Nat)).getD 0 [] |>.set 0 158), [88, 254]⟩ = .ok () ↔
      generate_checksum [0] (([[108]] : List (List Nat)).set 0 (([[108]] : List (List Nat)).getD 0 [] |>.set 0 158)) =
        [88, 254]) :=
  claim_C6_amended ⟨⟨1, 1, 1⟩, [[31]]⟩ [0] ⟨[0], [[108]], [88, 254]⟩ 0 0 158
    (by decide) (by decide) (by decide) (by decide) (by decide)

/-! ## Claim C7: random IV generation -/

/-- C7 fails as stated against the compiled code: the inline `gen` module of
`lib.rs` draws each IV length from `gen_range(1..10)`, so a draw of 1 —
admissible on every call — yields an IV of length 1, outside the claimed
10–16 range.  With every length draw 1 and every fill byte 0, the generator
for `payload_length = 3` holds three singleton IVs, none of whose lengths
reaches 10. -/
theorem claim_C7_counterexample :
    (AdminGenerator.new_with_random_ivs ⟨2, 3, 4⟩
      ⟨fun _ => 1, fun _ _ => 0, fun _ _ => 0⟩).ivs = [[0], [0], [0]] ∧
    ¬(∀ iv ∈ (AdminGenerator.new_with_random_ivs ⟨2, 3, 4⟩
        ⟨fun _ => 1, fun _ _ => 0, fun _ _ => 0⟩).ivs,
        10 ≤ iv.length ∧ iv.length ≤ 16) := by
  refine ⟨by decide, by decide⟩

/-- C7 amended: `new_with_random_ivs` draws exactly `payload_length` IVs,
and as long as the `gen_range(1..10)` contract of the compiled `lib.rs` copy
holds, every IV's length lies between 1 and 9 — in particular every IV is
non-empty. -/
theorem claim_C7 (params : LicenseStructParameters) (rng : RandomSource)
    (hrange : ∀ i : Nat, 1 ≤ rng.lenChoice i ∧ rng.lenChoice i < 10) :
    (AdminGenerator.new_with_random_ivs params rng).ivs.length = params.payload_length ∧
    ∀ iv ∈ (AdminGenerator.new_with_random_ivs params rng).ivs,
      1 ≤ iv.length ∧ iv.length ≤ 9 ∧ iv ≠ [] := by
  constructor
  · unfold AdminGenerator.new_with_random_ivs
    simp
  · intro iv hiv
    unfold AdminGenerator.new_with_random_ivs at hiv
    simp only [List.mem_map] at hiv
    obtain ⟨i, _, rfl⟩ := hiv
    have hlen : (fillBytes (rng.secondFill i)
        ((List.range (rng.lenChoice i)).map (rng.firstFill i))).length = rng.lenChoice i := by
      unfold fillBytes
      simp
    have hr := hrange i
    refine ⟨by omega, by omega, ?_⟩
    intro habs
    rw [habs] at hlen
    simp at hlen
    omega

theorem claim_C7_witness :
    (AdminGenerator.new_with_random_ivs ⟨1, 2, 1⟩
      ⟨fun _ => 5, fun _ _ => 0, fun _ _ => 0⟩).ivs.length = 2 ∧
    ∀ iv ∈ (AdminGenerator.new_with_random_ivs ⟨1, 2, 1⟩
      ⟨fun _ => 5, fun _ _ => 0, fun _ _ => 0⟩).ivs,
      1 ≤ iv.length ∧ iv.length ≤ 9 ∧ iv ≠ [] :=
  claim_C7 ⟨1, 2, 1⟩ ⟨fun _ => 5, fun _ _ => 0, fun _ _ => 0⟩
    (fun _ => ⟨(by norm_num : (1 : Nat) ≤ 5), (by norm_num : (5 : Nat) < 10)⟩)

/-! ## Claim C9: remote blocklist checking -/

theorem decodeLines_eq_none_iff : ∀ (ls : List (List Nat)),
    decodeLines ls = none ↔ ∃ l ∈ ls, b64Decode l = none
  | [] => by simp [decodeLines]
  | line :: rest => by
    have ih := decodeLines_eq_none_iff rest
    cases hd : b64Decode line with
    | none =>
      simp only [decodeLines, hd]
      constructor
      · intro _
        exact ⟨line, List.mem_cons_self line rest, hd⟩
      · intro _
        trivial
    | some b =>
      cases hr : decodeLines rest with
      | none =>
        simp only [decodeLines, hd, hr]
        constructor
        · intro _
          obtain ⟨l, hl, hnone⟩ := ih.mp hr
          exact ⟨l, List.mem_cons_of_mem line hl, hnone⟩
        · intro _
          trivial
      | some bs =>
        simp only [decodeLines, hd, hr]
        constructor
        · intro habs
          cases habs
        · rintro ⟨l, hl, hnone⟩
          rcases List.mem_cons.mp hl with rfl | hl2
          · rw [hd] at hnone
            cases hnone
          · have hcontra := ih.mpr ⟨l, hl2, hnone⟩
            rw [hr] at hcontra
            cases hcontra

/-- C9: the remote blocker fails closed with `BadList` on any transport
error, non-success status or unreadable body; with a body it fails with
`BadList` as soon as any newline-separated line fails to base64-decode, and
when every line decodes it reports `Blocked` exactly when the decoded seed
set contains the seed, `Ok` otherwise. -/
theorem claim_C9 (seed : List Nat) :
    RemoteFileBlocker.check_block .transportError seed = .error .badList ∧
    RemoteFileBlocker.check_block .statusError seed = .error .badList ∧
    RemoteFileBlocker.check_block .bodyError seed = .error .badList ∧
    (∀ body : List Nat, (∃ line ∈ splitNewlines body, b64Decode line = none) →
      RemoteFileBlocker.check_block (.body body) seed = .error .badList) ∧
    (∀ (body : List Nat) (decoded : List (List Nat)),
      decodeLines (splitNewlines body) = some decoded →
      RemoteFileBlocker.check_block (.body body) seed =
        if seed ∈ decoded then .error .blocked else .ok ()) := by
  refine ⟨rfl, rfl, rfl, ?_, ?_⟩
  · intro body hex
    have hnone := (decodeLines_eq_none_iff (splitNewlines body)).mpr hex
    show (match decodeLines (splitNewlines body) with
      | none => Except.error BlockCheckError.badList
      | some seeds =>
        if seed ∈ seeds then Except.error BlockCheckError.blocked else Except.ok ()) =
      Except.error BlockCheckError.badList
    rw [hnone]
  · intro body decoded hdec
    show (match decodeLines (splitNewlines body) with
      | none => Except.error BlockCheckError.badList
      | some seeds =>
        if seed ∈ seeds then Except.error BlockCheckError.blocked else Except.ok ()) =
      if seed ∈ decoded then Except.error BlockCheckError.blocked else Except.ok ()
    rw [hdec]

theorem claim_C9_witness :
    (RemoteFileBlocker.check_block (.body [81, 85, 74, 68, 10, 82, 69, 86, 71]) [65, 66, 67] =
      if [65, 66, 67] ∈ [[65, 66, 67], [68, 69, 70]] then Except.error BlockCheckError.blocked
      else Except.ok ()) ∧
    RemoteFileBlocker.check_block (.body [33, 33]) [65, 66, 67] = .error .badList :=
  ⟨(claim_C9 [65, 66, 67]).2.2.2.2 [81, 85, 74, 68, 10, 82, 69, 86, 71]
      [[65, 66, 67], [68, 69, 70]] (by decide),
   (claim_C9 [65, 66, 67]).2.2.2.1 [33, 33] (by decide)⟩

end LicensesPro
